import Mathlib

/-
Shallow embedding of src/parquet_chunker.py, a utility that reads a parquet
file, partitions its rows into chunks, serializes each chunk to a temporary
file, uploads it to an object-storage bucket and removes the temporary file.

The dataset is modelled as a `List α` of rows; the estimated in-memory byte
footprint (pandas `df.memory_usage(deep=True).sum()`) is an external
measurement and enters the model as a natural-number parameter
`totalSizeBytes`.  Upload success or failure of the storage SDK call is an
external effect and enters as a boolean oracle `uploadOk : Nat → Bool`
indexed by the 0-based chunk index.  The run is modelled as the ordered
trace of observable events it performs (client construction, chunk
serialization to a temporary file, upload attempt, temporary-file removal,
progress message) together with its outcome (`Except`): a Python exception
becomes an `Except.error` and the trace stops at the raising statement.
-/

namespace ParquetChunker

/-- Python truthiness of an `Optional[str]`: `None` and `""` are falsy,
every other string is truthy (used by the condition on line 42 of the
source, `if (aws_access_key_id and aws_secret_access_key)`). -/
def truthy : Option String → Bool
  | none => false
  | some s => !(s == "")

/-- Line 42: explicit credentials are passed to `boto3.client` exactly when
`aws_access_key_id and aws_secret_access_key` is truthy in Python. -/
def explicitCreds (awsAccessKeyId awsSecretAccessKey : Option String) : Bool :=
  truthy awsAccessKeyId && truthy awsSecretAccessKey

/-- Line 31: `chunk_size_bytes = chunk_size_mb * 1024 * 1024`. -/
def chunkSizeBytes (chunkSizeMB : Nat) : Nat :=
  chunkSizeMB * 1024 * 1024

/-- Line 32: `num_chunks = math.ceil(total_size_bytes / chunk_size_bytes)`,
as exact ceiling division on naturals (defined when `csb > 0`; the `csb = 0`
case raises in Python and is short-circuited in `chunkAndUploadParquet`). -/
def numChunks (totalSizeBytes csb : Nat) : Nat :=
  (totalSizeBytes + csb - 1) / csb

/-- Line 45, `os.path.basename`: the part of the path after the last slash. -/
def basename (p : String) : String :=
  String.mk ((p.data.reverse.takeWhile (fun c => c ≠ '/')).reverse)

/-- Line 45, the root component of `os.path.splitext` applied to a basename:
strip the extension at the last dot, unless every character before that dot
is itself a dot (so `".bashrc"` keeps its name), or there is no dot. -/
def splitextRoot (b : String) : String :=
  let cs := b.data
  let extLen := (cs.reverse.takeWhile (fun c => c ≠ '.')).length
  if extLen = cs.length then b
  else if (cs.take (cs.length - extLen - 1)).any (fun c => c ≠ '.') then
    String.mk (cs.take (cs.length - extLen - 1))
  else b

/-- Line 45: `base_filename = os.path.splitext(os.path.basename(input_file))[0]`. -/
def baseFilename (p : String) : String :=
  splitextRoot (basename p)

/-- Python formatting `{n:03d}` for a natural number: decimal digits,
left-padded with zeros to a minimum width of 3, never truncated. -/
def zeroPad3 (n : Nat) : String :=
  let s := toString n
  String.mk (List.replicate (3 - s.length) '0') ++ s

/-- Line 60: `s3_key = f"{prefix}{base_filename}_part_{i+1:03d}.parquet"`,
taking the 1-based ordinal as argument. -/
def s3Key (pfx base : String) (ordinal : Nat) : String :=
  pfx ++ base ++ "_part_" ++ zeroPad3 ordinal ++ ".parquet"

/-- Lines 49-53: the row slice of chunk `i` (0-based) out of `n` chunks with
`p` rows per chunk: `df.iloc[start:end]` with `start = i*p` and
`end = None` for the last chunk, `(i+1)*p` otherwise. -/
def chunkSlice (rows : List α) (n p i : Nat) : List α :=
  if i = n - 1 then rows.drop (i * p)
  else (rows.drop (i * p)).take p

/-- Observable events of a run, in program order.  `clientInit` records
whether explicit credentials were passed (line 38-42); `serialize i c`
writes chunk `c` to the temporary file `temp_chunk_i.parquet` (line 57);
`upload i k` is a successful upload of that file to key `k` (line 61);
`uploadFail i k` is an upload attempt that raised; `serializeFail i` is a
`to_parquet` call (line 57) that raised; `remove i` is
`os.remove` of the temporary file (line 64); `progress o` is the printed
message for 1-based ordinal `o` (line 66). -/
inductive Event (α : Type) where
  | clientInit : Bool → Event α
  | serialize : Nat → List α → Event α
  | upload : Nat → String → Event α
  | uploadFail : Nat → String → Event α
  | serializeFail : Nat → Event α
  | remove : Nat → Event α
  | progress : Nat → Event α
  deriving DecidableEq, Repr

/-- Errors a run can surface: the `ZeroDivisionError` of line 35 when
`num_chunks` is 0 (or of line 32 when `chunk_size_bytes` is 0), a
serialization failure of `to_parquet` on line 57, and an upload failure,
each at a given 0-based chunk index. -/
inductive RunError where
  | zeroDivisionError : RunError
  | serializeError : Nat → RunError
  | uploadError : Nat → RunError
  deriving DecidableEq, Repr

/-- Lines 48-66: the per-chunk loop over the remaining 0-based chunk
indices.  Each iteration serializes the slice, attempts the upload, and on
success removes the temporary file and prints progress; an upload failure
raises at once, so the removal and all later iterations never happen. -/
def runLoop (uploadOk : Nat → Bool) (rows : List α) (n p : Nat)
    (pfx base : String) : List Nat → List (Event α) × Except RunError Unit
  | [] => ([], .ok ())
  | i :: rest =>
    let chunk := chunkSlice rows n p i
    let key := s3Key pfx base (i + 1)
    if uploadOk i then
      let r := runLoop uploadOk rows n p pfx base rest
      (.serialize i chunk :: .upload i key :: .remove i :: .progress (i + 1) :: r.1,
       r.2)
    else
      ([.serialize i chunk, .uploadFail i key], .error (.uploadError i))

/-- Lines 27-66: the whole run of `chunk_and_upload_parquet`.  The dataset
`rows` and its estimated footprint `totalSizeBytes` stand for the loaded
dataframe; the chunk plan is computed, then the storage client is
constructed (line 38, after `rows_per_chunk` on line 35), then the chunk
loop runs over `range(num_chunks)`. -/
def chunkAndUploadParquet (uploadOk : Nat → Bool) (rows : List α)
    (totalSizeBytes chunkSizeMB : Nat)
    (awsAccessKeyId awsSecretAccessKey : Option String)
    (pfx inputFile : String) : List (Event α) × Except RunError Unit :=
  let csb := chunkSizeBytes chunkSizeMB
  if csb = 0 then ([], .error .zeroDivisionError)
  else
    let n := numChunks totalSizeBytes csb
    if n = 0 then ([], .error .zeroDivisionError)
    else
      let p := rows.length / n
      let base := baseFilename inputFile
      let r := runLoop uploadOk rows n p pfx base (List.range n)
      (Event.clientInit (explicitCreds awsAccessKeyId awsSecretAccessKey) :: r.1,
       r.2)

/-- Lines 48-66 again, with the full failure surface of one loop
iteration: like `runLoop`, but `chunk_df.to_parquet` (line 57) is also
fallible, through the `serializeOk` oracle.  A serialization failure
raises before the temporary file exists, so the iteration emits only
`serializeFail` and the run stops; an upload failure behaves as in
`runLoop`. -/
def runLoopF (serializeOk uploadOk : Nat → Bool) (rows : List α)
    (n p : Nat) (pfx base : String) :
    List Nat → List (Event α) × Except RunError Unit
  | [] => ([], .ok ())
  | i :: rest =>
    let chunk := chunkSlice rows n p i
    let key := s3Key pfx base (i + 1)
    if serializeOk i then
      if uploadOk i then
        let r := runLoopF serializeOk uploadOk rows n p pfx base rest
        (.serialize i chunk :: .upload i key :: .remove i
            :: .progress (i + 1) :: r.1,
         r.2)
      else
        ([.serialize i chunk, .uploadFail i key], .error (.uploadError i))
    else
      ([.serializeFail i], .error (.serializeError i))

/-- The whole run of `chunk_and_upload_parquet` over the fallible loop
`runLoopF`: identical to `chunkAndUploadParquet` except that chunk
serialization can fail too. -/
def chunkAndUploadParquetF (serializeOk uploadOk : Nat → Bool)
    (rows : List α) (totalSizeBytes chunkSizeMB : Nat)
    (awsAccessKeyId awsSecretAccessKey : Option String)
    (pfx inputFile : String) : List (Event α) × Except RunError Unit :=
  let csb := chunkSizeBytes chunkSizeMB
  if csb = 0 then ([], .error .zeroDivisionError)
  else
    let n := numChunks totalSizeBytes csb
    if n = 0 then ([], .error .zeroDivisionError)
    else
      let p := rows.length / n
      let base := baseFilename inputFile
      let r := runLoopF serializeOk uploadOk rows n p pfx base
        (List.range n)
      (Event.clientInit (explicitCreds awsAccessKeyId awsSecretAccessKey)
          :: r.1,
       r.2)

/-- Ordinals (0-based) of chunks whose temporary file was created. -/
def serializedOrdinals (tr : List (Event α)) : List Nat :=
  tr.filterMap fun e => match e with | .serialize i _ => some i | _ => none

/-- Row slices written to temporary files, in trace order. -/
def serializedChunks (tr : List (Event α)) : List (List α) :=
  tr.filterMap fun e => match e with | .serialize _ c => some c | _ => none

/-- Object keys of the successful uploads, in trace order. -/
def uploadedKeys (tr : List (Event α)) : List String :=
  tr.filterMap fun e => match e with | .upload _ k => some k | _ => none

/-- One-based ordinals of the successful uploads, in trace order. -/
def uploadedOrdinals (tr : List (Event α)) : List Nat :=
  tr.filterMap fun e => match e with | .upload i _ => some (i + 1) | _ => none

/-- Ordinals (0-based) whose temporary file was removed. -/
def removedOrdinals (tr : List (Event α)) : List Nat :=
  tr.filterMap fun e => match e with | .remove i => some i | _ => none

/-- Ordinals (0-based) whose temporary file was created but never removed:
the temporary files still on disk when the run ends. -/
def tempFilesLeft (tr : List (Event α)) : List Nat :=
  (serializedOrdinals tr).filter (fun i => ¬ i ∈ removedOrdinals tr)

/-- The 0-based chunk index an event belongs to (`clientInit` counts as
preceding chunk 0; a progress message for 1-based ordinal `o` belongs to
chunk `o - 1`). -/
def eventChunk : Event α → Nat
  | .clientInit _ => 0
  | .serialize i _ => i
  | .upload i _ => i
  | .uploadFail i _ => i
  | .serializeFail i => i
  | .remove i => i
  | .progress o => o - 1

/-- The four events a successful loop iteration for 0-based chunk index `i`
emits, in program order (lines 57, 61, 64, 66 of the source). -/
def chunkEvents (rows : List α) (n p : Nat) (pfx base : String) (i : Nat) :
    List (Event α) :=
  [.serialize i (chunkSlice rows n p i),
   .upload i (s3Key pfx base (i + 1)),
   .remove i,
   .progress (i + 1)]

/- Helper lemmas about the chunk plan arithmetic. -/

lemma chunkSizeBytes_pos {m : Nat} (hm : 0 < m) : 0 < chunkSizeBytes m :=
  Nat.mul_pos (Nat.mul_pos hm (by norm_num)) (by norm_num)

lemma numChunks_pos {t c : Nat} (ht : 0 < t) (hc : 0 < c) :
    1 ≤ numChunks t c := by
  unfold numChunks
  rw [Nat.one_le_div_iff hc]
  omega

lemma numChunks_mul_ge {t c : Nat} (hc : 0 < c) : t ≤ numChunks t c * c := by
  unfold numChunks
  have h := Nat.lt_div_mul_add (a := t + c - 1) hc
  omega

lemma numChunks_pred_mul_lt {t c : Nat} (ht : 0 < t) (hc : 0 < c) :
    (numChunks t c - 1) * c < t := by
  unfold numChunks
  have h1 : ((t + c - 1) / c - 1) * c = (t + c - 1) / c * c - 1 * c :=
    Nat.sub_mul _ _ _
  have h2 := Nat.div_mul_le_self (t + c - 1) c
  omega

lemma numChunks_eq_one {t c : Nat} (ht : 0 < t) (htc : t ≤ c) :
    numChunks t c = 1 := by
  unfold numChunks
  exact Nat.div_eq_of_lt_le (by omega) (by omega)

/- Helper lemmas about the row slices. -/

lemma chunkSlice_length_mid (rows : List α) {n p i : Nat} (hi : i + 1 < n)
    (hp : p = rows.length / n) : (chunkSlice rows n p i).length = p := by
  unfold chunkSlice
  rw [if_neg (by omega), List.length_take, List.length_drop]
  have hnp : n * p ≤ rows.length := by
    rw [hp, Nat.mul_comm]
    exact Nat.div_mul_le_self _ _
  have hstep : (i + 1) * p ≤ n * p := Nat.mul_le_mul_right p (by omega)
  rw [Nat.add_one_mul] at hstep
  omega

lemma chunkSlice_length_last (rows : List α) (n p : Nat) :
    (chunkSlice rows n p (n - 1)).length = rows.length - (n - 1) * p := by
  unfold chunkSlice
  rw [if_pos rfl, List.length_drop]

lemma flatten_take_chunks (rows : List α) (p : Nat) :
    ∀ k, ((List.range k).map (fun i => (rows.drop (i * p)).take p)).flatten
      = rows.take (k * p) := by
  intro k
  induction k with
  | zero => simp
  | succ k ih =>
    rw [List.range_succ, List.map_append, List.flatten_append, ih]
    simp only [List.map_cons, List.map_nil, List.flatten_cons,
      List.flatten_nil, List.append_nil]
    rw [Nat.succ_mul, List.take_add]

lemma chunkSlices_flatten (rows : List α) {n : Nat} (p : Nat) (hn : 1 ≤ n) :
    ((List.range n).map (chunkSlice rows n p)).flatten = rows := by
  obtain ⟨m, rfl⟩ : ∃ m, n = m + 1 := ⟨n - 1, by omega⟩
  rw [List.range_succ, List.map_append, List.flatten_append]
  have h1 : (List.range m).map (chunkSlice rows (m + 1) p)
      = (List.range m).map (fun i => (rows.drop (i * p)).take p) := by
    apply List.map_congr_left
    intro i hi
    rw [List.mem_range] at hi
    unfold chunkSlice
    rw [if_neg (by omega)]
  rw [h1, flatten_take_chunks]
  have h2 : chunkSlice rows (m + 1) p m = rows.drop (m * p) := by
    unfold chunkSlice
    rw [if_pos (by omega)]
  simp only [List.map_cons, List.map_nil, List.flatten_cons, List.flatten_nil,
    List.append_nil, h2]
  exact List.take_append_drop _ _

/- Helper lemmas about the per-chunk loop trace. -/

lemma runLoop_allOk (uploadOk : Nat → Bool) (rows : List α) (n p : Nat)
    (pfx base : String) :
    ∀ l : List Nat, (∀ i ∈ l, uploadOk i = true) →
      runLoop uploadOk rows n p pfx base l
        = (l.flatMap (chunkEvents rows n p pfx base), .ok ()) := by
  intro l hl
  induction l with
  | nil => simp [runLoop]
  | cons i rest ih =>
    have hi : uploadOk i = true := hl i (List.mem_cons_self _ _)
    have hrest : ∀ j ∈ rest, uploadOk j = true :=
      fun j hj => hl j (List.mem_cons_of_mem _ hj)
    simp [runLoop, hi, ih hrest, chunkEvents]

lemma runLoop_firstFail (uploadOk : Nat → Bool) (rows : List α) (n p : Nat)
    (pfx base : String) {k : Nat} (hok : ∀ i, i < k → uploadOk i = true)
    (hk : uploadOk k = false) :
    ∀ cnt s, s ≤ k → k < s + cnt →
      runLoop uploadOk rows n p pfx base (List.range' s cnt)
        = ((List.range' s (k - s)).flatMap (chunkEvents rows n p pfx base)
            ++ [.serialize k (chunkSlice rows n p k),
                .uploadFail k (s3Key pfx base (k + 1))],
           .error (.uploadError k)) := by
  intro cnt
  induction cnt with
  | zero => intro s hs1 hs2; omega
  | succ c ih =>
    intro s hs1 hs2
    rw [List.range'_succ]
    by_cases hsk : s = k
    · subst hsk
      simp [runLoop, hk, Nat.sub_self]
    · have hs : uploadOk s = true := hok s (by omega)
      have ih' := ih (s + 1) (by omega) (by omega)
      have h1 : k - s = (k - (s + 1)) + 1 := by omega
      rw [h1, List.range'_succ, List.flatMap_cons]
      simp [runLoop, hs, ih', chunkEvents]

/- Helper lemmas evaluating the observables on a loop trace. -/

lemma serializedChunks_flatMap (rows : List α) (n p : Nat) (pfx base : String) :
    ∀ l : List Nat,
      serializedChunks (l.flatMap (chunkEvents rows n p pfx base))
        = l.map (chunkSlice rows n p) := by
  intro l
  induction l with
  | nil => rfl
  | cons i rest ih =>
    unfold serializedChunks at ih ⊢
    rw [List.flatMap_cons, List.filterMap_append, ih]
    rfl

lemma serializedOrdinals_flatMap (rows : List α) (n p : Nat)
    (pfx base : String) :
    ∀ l : List Nat,
      serializedOrdinals (l.flatMap (chunkEvents rows n p pfx base)) = l := by
  intro l
  induction l with
  | nil => rfl
  | cons i rest ih =>
    unfold serializedOrdinals at ih ⊢
    rw [List.flatMap_cons, List.filterMap_append, ih]
    rfl

lemma uploadedKeys_flatMap (rows : List α) (n p : Nat) (pfx base : String) :
    ∀ l : List Nat,
      uploadedKeys (l.flatMap (chunkEvents rows n p pfx base))
        = l.map (fun i => s3Key pfx base (i + 1)) := by
  intro l
  induction l with
  | nil => rfl
  | cons i rest ih =>
    unfold uploadedKeys at ih ⊢
    rw [List.flatMap_cons, List.filterMap_append, ih]
    rfl

lemma uploadedOrdinals_flatMap (rows : List α) (n p : Nat)
    (pfx base : String) :
    ∀ l : List Nat,
      uploadedOrdinals (l.flatMap (chunkEvents rows n p pfx base))
        = l.map (fun i => i + 1) := by
  intro l
  induction l with
  | nil => rfl
  | cons i rest ih =>
    unfold uploadedOrdinals at ih ⊢
    rw [List.flatMap_cons, List.filterMap_append, ih]
    rfl

lemma removedOrdinals_flatMap (rows : List α) (n p : Nat)
    (pfx base : String) :
    ∀ l : List Nat,
      removedOrdinals (l.flatMap (chunkEvents rows n p pfx base)) = l := by
  intro l
  induction l with
  | nil => rfl
  | cons i rest ih =>
    unfold removedOrdinals at ih ⊢
    rw [List.flatMap_cons, List.filterMap_append, ih]
    rfl

/- Helper lemmas characterising full runs. -/

lemma run_success (uploadOk : Nat → Bool) (rows : List α) {t m : Nat}
    (ak sk : Option String) (pfx input : String)
    (ht : 0 < t) (hm : 0 < m) (h : ∀ i, uploadOk i = true) :
    chunkAndUploadParquet uploadOk rows t m ak sk pfx input
      = (Event.clientInit (explicitCreds ak sk)
          :: (List.range (numChunks t (chunkSizeBytes m))).flatMap
               (chunkEvents rows (numChunks t (chunkSizeBytes m))
                 (rows.length / numChunks t (chunkSizeBytes m)) pfx
                 (baseFilename input)),
         .ok ()) := by
  have hc := chunkSizeBytes_pos hm
  have hn := numChunks_pos ht hc
  have hloop := runLoop_allOk uploadOk rows (numChunks t (chunkSizeBytes m))
    (rows.length / numChunks t (chunkSizeBytes m)) pfx (baseFilename input)
    (List.range (numChunks t (chunkSizeBytes m))) (fun i _ => h i)
  unfold chunkAndUploadParquet
  rw [if_neg (by omega), if_neg (by omega)]
  simp only [hloop]

lemma run_firstFail (uploadOk : Nat → Bool) (rows : List α) {t m k : Nat}
    (ak sk : Option String) (pfx input : String)
    (ht : 0 < t) (hm : 0 < m)
    (hok : ∀ i, i < k → uploadOk i = true) (hk : uploadOk k = false)
    (hkn : k < numChunks t (chunkSizeBytes m)) :
    chunkAndUploadParquet uploadOk rows t m ak sk pfx input
      = (Event.clientInit (explicitCreds ak sk)
          :: ((List.range' 0 k).flatMap
               (chunkEvents rows (numChunks t (chunkSizeBytes m))
                 (rows.length / numChunks t (chunkSizeBytes m)) pfx
                 (baseFilename input))
            ++ [.serialize k (chunkSlice rows (numChunks t (chunkSizeBytes m))
                  (rows.length / numChunks t (chunkSizeBytes m)) k),
                .uploadFail k (s3Key pfx (baseFilename input) (k + 1))]),
         .error (.uploadError k)) := by
  have hc := chunkSizeBytes_pos hm
  have hn := numChunks_pos ht hc
  have hloop := runLoop_firstFail uploadOk rows
    (numChunks t (chunkSizeBytes m))
    (rows.length / numChunks t (chunkSizeBytes m)) pfx (baseFilename input)
    hok hk (numChunks t (chunkSizeBytes m)) 0 (by omega) (by omega)
  rw [Nat.sub_zero] at hloop
  unfold chunkAndUploadParquet
  rw [if_neg (by omega), if_neg (by omega)]
  simp only [List.range_eq_range', hloop]

/- Helper lemmas about the fallible loop and its runs. -/

lemma runLoopF_eq_runLoop (serializeOk uploadOk : Nat → Bool)
    (rows : List α) (n p : Nat) (pfx base : String) :
    ∀ l : List Nat, (∀ i ∈ l, serializeOk i = true) →
      runLoopF serializeOk uploadOk rows n p pfx base l
        = runLoop uploadOk rows n p pfx base l := by
  intro l hl
  induction l with
  | nil => rfl
  | cons i rest ih =>
    have hi : serializeOk i = true := hl i (List.mem_cons_self _ _)
    have hrest : ∀ j ∈ rest, serializeOk j = true :=
      fun j hj => hl j (List.mem_cons_of_mem _ hj)
    simp [runLoopF, runLoop, hi, ih hrest]

lemma runLoopF_firstFailSerialize (serializeOk uploadOk : Nat → Bool)
    (rows : List α) (n p : Nat) (pfx base : String) {k : Nat}
    (hok : ∀ i, i < k → serializeOk i = true ∧ uploadOk i = true)
    (hk : serializeOk k = false) :
    ∀ cnt s, s ≤ k → k < s + cnt →
      runLoopF serializeOk uploadOk rows n p pfx base (List.range' s cnt)
        = ((List.range' s (k - s)).flatMap (chunkEvents rows n p pfx base)
            ++ [.serializeFail k], .error (.serializeError k)) := by
  intro cnt
  induction cnt with
  | zero => intro s hs1 hs2; omega
  | succ c ih =>
    intro s hs1 hs2
    rw [List.range'_succ]
    by_cases hsk : s = k
    · subst hsk
      simp [runLoopF, hk, Nat.sub_self]
    · have hs := hok s (by omega)
      have ih' := ih (s + 1) (by omega) (by omega)
      have h1 : k - s = (k - (s + 1)) + 1 := by omega
      rw [h1, List.range'_succ, List.flatMap_cons]
      simp [runLoopF, hs.1, hs.2, ih', chunkEvents]

lemma runLoopF_firstFailUpload (serializeOk uploadOk : Nat → Bool)
    (rows : List α) (n p : Nat) (pfx base : String) {k : Nat}
    (hok : ∀ i, i < k → serializeOk i = true ∧ uploadOk i = true)
    (hks : serializeOk k = true) (hk : uploadOk k = false) :
    ∀ cnt s, s ≤ k → k < s + cnt →
      runLoopF serializeOk uploadOk rows n p pfx base (List.range' s cnt)
        = ((List.range' s (k - s)).flatMap (chunkEvents rows n p pfx base)
            ++ [.serialize k (chunkSlice rows n p k),
                .uploadFail k (s3Key pfx base (k + 1))],
           .error (.uploadError k)) := by
  intro cnt
  induction cnt with
  | zero => intro s hs1 hs2; omega
  | succ c ih =>
    intro s hs1 hs2
    rw [List.range'_succ]
    by_cases hsk : s = k
    · subst hsk
      simp [runLoopF, hks, hk, Nat.sub_self]
    · have hs := hok s (by omega)
      have ih' := ih (s + 1) (by omega) (by omega)
      have h1 : k - s = (k - (s + 1)) + 1 := by omega
      rw [h1, List.range'_succ, List.flatMap_cons]
      simp [runLoopF, hs.1, hs.2, ih', chunkEvents]

lemma runF_firstFailSerialize (serializeOk uploadOk : Nat → Bool)
    (rows : List α) {t m k : Nat} (ak sk : Option String)
    (pfx input : String) (ht : 0 < t) (hm : 0 < m)
    (hok : ∀ i, i < k → serializeOk i = true ∧ uploadOk i = true)
    (hk : serializeOk k = false)
    (hkn : k < numChunks t (chunkSizeBytes m)) :
    chunkAndUploadParquetF serializeOk uploadOk rows t m ak sk pfx input
      = (Event.clientInit (explicitCreds ak sk)
          :: ((List.range' 0 k).flatMap
               (chunkEvents rows (numChunks t (chunkSizeBytes m))
                 (rows.length / numChunks t (chunkSizeBytes m)) pfx
                 (baseFilename input))
            ++ [.serializeFail k]),
         .error (.serializeError k)) := by
  have hc := chunkSizeBytes_pos hm
  have hn := numChunks_pos ht hc
  have hloop := runLoopF_firstFailSerialize serializeOk uploadOk rows
    (numChunks t (chunkSizeBytes m))
    (rows.length / numChunks t (chunkSizeBytes m)) pfx (baseFilename input)
    hok hk (numChunks t (chunkSizeBytes m)) 0 (by omega) (by omega)
  rw [Nat.sub_zero] at hloop
  unfold chunkAndUploadParquetF
  rw [if_neg (by omega), if_neg (by omega)]
  simp only [List.range_eq_range', hloop]

lemma runF_firstFailUpload (serializeOk uploadOk : Nat → Bool)
    (rows : List α) {t m k : Nat} (ak sk : Option String)
    (pfx input : String) (ht : 0 < t) (hm : 0 < m)
    (hok : ∀ i, i < k → serializeOk i = true ∧ uploadOk i = true)
    (hks : serializeOk k = true) (hk : uploadOk k = false)
    (hkn : k < numChunks t (chunkSizeBytes m)) :
    chunkAndUploadParquetF serializeOk uploadOk rows t m ak sk pfx input
      = (Event.clientInit (explicitCreds ak sk)
          :: ((List.range' 0 k).flatMap
               (chunkEvents rows (numChunks t (chunkSizeBytes m))
                 (rows.length / numChunks t (chunkSizeBytes m)) pfx
                 (baseFilename input))
            ++ [.serialize k (chunkSlice rows (numChunks t (chunkSizeBytes m))
                  (rows.length / numChunks t (chunkSizeBytes m)) k),
                .uploadFail k (s3Key pfx (baseFilename input) (k + 1))]),
         .error (.uploadError k)) := by
  have hc := chunkSizeBytes_pos hm
  have hn := numChunks_pos ht hc
  have hloop := runLoopF_firstFailUpload serializeOk uploadOk rows
    (numChunks t (chunkSizeBytes m))
    (rows.length / numChunks t (chunkSizeBytes m)) pfx (baseFilename input)
    hok hks hk (numChunks t (chunkSizeBytes m)) 0 (by omega) (by omega)
  rw [Nat.sub_zero] at hloop
  unfold chunkAndUploadParquetF
  rw [if_neg (by omega), if_neg (by omega)]
  simp only [List.range_eq_range', hloop]

/- Helper lemmas for the temporal ordering of events. -/

lemma eventChunk_chunkEvents (rows : List α) (n p : Nat) (pfx base : String)
    (i : Nat) : ∀ e ∈ chunkEvents rows n p pfx base i, eventChunk e = i := by
  intro e he
  simp only [chunkEvents, List.mem_cons, List.not_mem_nil, or_false] at he
  rcases he with rfl | rfl | rfl | rfl
  · rfl
  · rfl
  · rfl
  · simp [eventChunk]

lemma pairwise_eventChunk_flatMap (rows : List α) (n p : Nat)
    (pfx base : String) (l : List Nat) (hl : l.Pairwise (· ≤ ·)) :
    (l.flatMap (chunkEvents rows n p pfx base)).Pairwise
      (fun e f => eventChunk e ≤ eventChunk f) := by
  rw [List.pairwise_flatMap]
  constructor
  · intro a _
    apply List.pairwise_of_forall_mem_list
    intro x hx y hy
    rw [eventChunk_chunkEvents rows n p pfx base a x hx,
      eventChunk_chunkEvents rows n p pfx base a y hy]
  · refine hl.imp_of_mem ?_
    intro a b ha hb hab x hx y hy
    rw [eventChunk_chunkEvents rows n p pfx base a x hx,
      eventChunk_chunkEvents rows n p pfx base b y hy]
    exact hab

/- Small evaluation lemmas for observables on structured traces. -/

lemma serializedChunks_cons_clientInit (b : Bool) (tr : List (Event α)) :
    serializedChunks (Event.clientInit b :: tr) = serializedChunks tr := rfl

lemma serializedOrdinals_cons_clientInit (b : Bool) (tr : List (Event α)) :
    serializedOrdinals (Event.clientInit b :: tr) = serializedOrdinals tr :=
  rfl

lemma uploadedKeys_cons_clientInit (b : Bool) (tr : List (Event α)) :
    uploadedKeys (Event.clientInit b :: tr) = uploadedKeys tr := rfl

lemma uploadedOrdinals_cons_clientInit (b : Bool) (tr : List (Event α)) :
    uploadedOrdinals (Event.clientInit b :: tr) = uploadedOrdinals tr := rfl

lemma removedOrdinals_cons_clientInit (b : Bool) (tr : List (Event α)) :
    removedOrdinals (Event.clientInit b :: tr) = removedOrdinals tr := rfl

lemma serializedOrdinals_append (tr₁ tr₂ : List (Event α)) :
    serializedOrdinals (tr₁ ++ tr₂)
      = serializedOrdinals tr₁ ++ serializedOrdinals tr₂ :=
  List.filterMap_append _ _ _

lemma uploadedKeys_append (tr₁ tr₂ : List (Event α)) :
    uploadedKeys (tr₁ ++ tr₂) = uploadedKeys tr₁ ++ uploadedKeys tr₂ :=
  List.filterMap_append _ _ _

lemma removedOrdinals_append (tr₁ tr₂ : List (Event α)) :
    removedOrdinals (tr₁ ++ tr₂)
      = removedOrdinals tr₁ ++ removedOrdinals tr₂ :=
  List.filterMap_append _ _ _

lemma serializedOrdinals_failTail (k : Nat) (c : List α) (key : String) :
    serializedOrdinals [Event.serialize k c, Event.uploadFail k key] = [k] :=
  rfl

lemma removedOrdinals_failTail (k : Nat) (c : List α) (key : String) :
    removedOrdinals [Event.serialize k c, Event.uploadFail k key] = [] := rfl

lemma uploadedKeys_failTail (k : Nat) (c : List α) (key : String) :
    uploadedKeys [Event.serialize k c, Event.uploadFail k key] = [] := rfl

lemma serializedOrdinals_serializeFailTail (k : Nat) :
    serializedOrdinals ([Event.serializeFail k] : List (Event α)) = [] := rfl

lemma uploadedKeys_serializeFailTail (k : Nat) :
    uploadedKeys ([Event.serializeFail k] : List (Event α)) = [] := rfl

lemma map_succ_range {β : Type} (f : Nat → β) (n : Nat) :
    (List.range n).map (fun i => f (i + 1)) = (List.range' 1 n).map f := by
  rw [List.range'_eq_map_range, List.map_map]
  apply List.map_congr_left
  intro a _
  simp [Nat.add_comm]

/-- Claim C2, counterexample: with an estimated in-memory footprint of 0
bytes and the default 250 MB budget, `num_chunks` computes to 0 — not at
least 1 as the claim states — and the run crashes with a division-by-zero
error instead of producing any chunk: the code has no floor of 1. -/
theorem numChunks_floor_counterexample :
    numChunks 0 (chunkSizeBytes 250) = 0
    ∧ chunkAndUploadParquet (fun _ => true) ([] : List Nat) 0 250 none none
        "" "data.parquet" = ([], .error .zeroDivisionError) :=
  ⟨by decide, rfl⟩

/-- Claim C2, amended: for every dataset whose estimated in-memory footprint
is positive (as every dataframe footprint reported by pandas is, since the
index alone contributes) and every positive `chunk_size_mb`, `num_chunks`
is exactly the ceiling of `estimated_total_bytes / chunk_size_bytes` — in
particular at least 1, also when the dataset is smaller than one chunk
budget.  The ceiling is characterised by the two inequalities. -/
theorem numChunks_ceil_amended {t m : Nat} (ht : 0 < t) (hm : 0 < m) :
    1 ≤ numChunks t (chunkSizeBytes m)
    ∧ t ≤ numChunks t (chunkSizeBytes m) * chunkSizeBytes m
    ∧ (numChunks t (chunkSizeBytes m) - 1) * chunkSizeBytes m < t :=
  ⟨numChunks_pos ht (chunkSizeBytes_pos hm),
   numChunks_mul_ge (chunkSizeBytes_pos hm),
   numChunks_pred_mul_lt ht (chunkSizeBytes_pos hm)⟩

/-- Witness for the amended claim C2 at `t = 1`, `m = 250`: a 1-byte
dataset with the default budget gets exactly one chunk. -/
theorem numChunks_ceil_amended_witness :
    1 ≤ numChunks 1 (chunkSizeBytes 250)
    ∧ 1 ≤ numChunks 1 (chunkSizeBytes 250) * chunkSizeBytes 250
    ∧ (numChunks 1 (chunkSizeBytes 250) - 1) * chunkSizeBytes 250 < 1 :=
  @numChunks_ceil_amended 1 250 (by decide) (by decide)

/-- Claim C9: if the estimated in-memory byte footprint is 0, `num_chunks`
computes to 0, the computation of `rows_per_chunk` divides by zero, and the
run fails with an empty trace — so before any storage client is
constructed (no `clientInit` event) and before any chunk is serialized or
uploaded. -/
theorem zero_footprint_crash {α : Type} (uploadOk : Nat → Bool)
    (rows : List α) {m : Nat} (ak sk : Option String) (pfx input : String)
    (hm : 0 < m) :
    numChunks 0 (chunkSizeBytes m) = 0
    ∧ chunkAndUploadParquet uploadOk rows 0 m ak sk pfx input
        = ([], .error .zeroDivisionError) := by
  have hc := chunkSizeBytes_pos hm
  have h0 : numChunks 0 (chunkSizeBytes m) = 0 := by
    unfold numChunks
    exact Nat.div_eq_of_lt (by omega)
  refine ⟨h0, ?_⟩
  unfold chunkAndUploadParquet
  rw [if_neg (by omega)]
  simp [h0]

/-- Witness for claim C9 at `m = 250` on a 3-row dataset. -/
theorem zero_footprint_crash_witness :
    numChunks 0 (chunkSizeBytes 250) = 0
    ∧ chunkAndUploadParquet (fun _ => true) [10, 20, 30] 0 250 none none
        "p/" "in.parquet" = ([], .error .zeroDivisionError) :=
  zero_footprint_crash (fun _ => true) [10, 20, 30] none none ("p/")
    "in.parquet" (by decide)

/-- Claim C3: for a dataset of `R` rows split into `n ≥ 1` chunks with
`P = R / n` rows per chunk, the chunk row counts sum to `R`; every chunk
with 0-based index up to `n - 2` has exactly `P` rows; and the last chunk
has `R - P * (n - 1)` rows, which is at least `P` (and, as a natural
number, never negative). -/
theorem chunk_row_counts {α : Type} (rows : List α) (n : Nat) (hn : 1 ≤ n) :
    (((List.range n).map
        (fun i => (chunkSlice rows n (rows.length / n) i).length)).sum
      = rows.length)
    ∧ (∀ i, i + 1 < n →
        (chunkSlice rows n (rows.length / n) i).length = rows.length / n)
    ∧ (chunkSlice rows n (rows.length / n) (n - 1)).length
        = rows.length - (rows.length / n) * (n - 1)
    ∧ rows.length / n
        ≤ (chunkSlice rows n (rows.length / n) (n - 1)).length := by
  have hnp : n * (rows.length / n) ≤ rows.length := by
    rw [Nat.mul_comm]
    exact Nat.div_mul_le_self _ _
  refine ⟨?_, ?_, ?_, ?_⟩
  · have h2 := List.length_flatten
      ((List.range n).map (chunkSlice rows n (rows.length / n)))
    rw [chunkSlices_flatten rows _ hn, List.map_map] at h2
    exact h2.symm
  · intro i hi
    exact chunkSlice_length_mid rows hi rfl
  · rw [chunkSlice_length_last, Nat.mul_comm]
  · rw [chunkSlice_length_last]
    have h1 : (n - 1) * (rows.length / n)
        = n * (rows.length / n) - 1 * (rows.length / n) := Nat.sub_mul _ _ _
    have h3 : rows.length / n ≤ rows.length := Nat.div_le_self _ _
    omega

/-- Witness for claim C3: 7 rows in 3 chunks, `P = 2`, counts `[2, 2, 3]`. -/
theorem chunk_row_counts_witness :
    (((List.range 3).map
        (fun i => (chunkSlice [0, 1, 2, 3, 4, 5, 6] 3
          ([0, 1, 2, 3, 4, 5, 6].length / 3) i).length)).sum
      = [0, 1, 2, 3, 4, 5, 6].length)
    ∧ (∀ i, i + 1 < 3 →
        (chunkSlice [0, 1, 2, 3, 4, 5, 6] 3
          ([0, 1, 2, 3, 4, 5, 6].length / 3) i).length
          = [0, 1, 2, 3, 4, 5, 6].length / 3)
    ∧ (chunkSlice [0, 1, 2, 3, 4, 5, 6] 3
        ([0, 1, 2, 3, 4, 5, 6].length / 3) 2).length
        = [0, 1, 2, 3, 4, 5, 6].length
          - ([0, 1, 2, 3, 4, 5, 6].length / 3) * 2
    ∧ [0, 1, 2, 3, 4, 5, 6].length / 3
        ≤ (chunkSlice [0, 1, 2, 3, 4, 5, 6] 3
            ([0, 1, 2, 3, 4, 5, 6].length / 3) 2).length :=
  chunk_row_counts [0, 1, 2, 3, 4, 5, 6] 3 (by decide)

/-- Claim C4: concatenating all produced chunks in ascending ordinal order
yields exactly the original dataset rows in their original order: in a run
where every upload succeeds, flattening the chunk slices serialized in the
trace gives back the input rows. -/
theorem chunks_roundtrip {α : Type} (uploadOk : Nat → Bool) (rows : List α)
    {t m : Nat} (ak sk : Option String) (pfx input : String)
    (ht : 0 < t) (hm : 0 < m) (h : ∀ i, uploadOk i = true) :
    (serializedChunks
        (chunkAndUploadParquet uploadOk rows t m ak sk pfx input).1).flatten
      = rows := by
  simp only [run_success uploadOk rows ak sk pfx input ht hm h,
    serializedChunks_cons_clientInit, serializedChunks_flatMap]
  exact chunkSlices_flatten rows _
    (numChunks_pos ht (chunkSizeBytes_pos hm))

/-- Witness for claim C4 on a concrete 5-row dataset split into 2 chunks. -/
theorem chunks_roundtrip_witness :
    (serializedChunks
        (chunkAndUploadParquet (fun _ => true) [1, 2, 3, 4, 5]
          (2 * 1024 * 1024) 1 none none ("pre/") "data.parquet").1).flatten
      = [1, 2, 3, 4, 5] :=
  chunks_roundtrip (fun _ => true) [1, 2, 3, 4, 5] none none ("pre/")
    "data.parquet" (by decide) (by decide) (fun _ => rfl)

/-- Claim C5: in a run where every upload succeeds, the uploaded object
keys are, in order, `s3Key pfx base k` = `pfx ++ base ++ "_part_" ++
(k zero-padded to 3 digits) ++ ".parquet"` for the 1-based ordinals
`k = 1 .. num_chunks`, where `base` is the input path filename with its
extension stripped; the ordinals are exactly `1 .. num_chunks`, strictly
increasing, with no gaps and no duplicates. -/
theorem object_key_format {α : Type} (uploadOk : Nat → Bool) (rows : List α)
    {t m : Nat} (ak sk : Option String) (pfx input : String)
    (ht : 0 < t) (hm : 0 < m) (h : ∀ i, uploadOk i = true) :
    uploadedKeys (chunkAndUploadParquet uploadOk rows t m ak sk pfx input).1
      = (List.range' 1 (numChunks t (chunkSizeBytes m))).map
          (s3Key pfx (baseFilename input))
    ∧ uploadedOrdinals
        (chunkAndUploadParquet uploadOk rows t m ak sk pfx input).1
      = List.range' 1 (numChunks t (chunkSizeBytes m))
    ∧ (uploadedOrdinals
        (chunkAndUploadParquet uploadOk rows t m ak sk pfx input).1).Pairwise
          (· < ·) := by
  simp only [run_success uploadOk rows ak sk pfx input ht hm h,
    uploadedKeys_cons_clientInit, uploadedOrdinals_cons_clientInit,
    uploadedKeys_flatMap, uploadedOrdinals_flatMap]
  refine ⟨map_succ_range _ _, ?_, ?_⟩
  · rw [map_succ_range (fun k => k) (numChunks t (chunkSizeBytes m))]
    exact List.map_id' _
  · rw [map_succ_range (fun k => k) (numChunks t (chunkSizeBytes m)),
      List.map_id']
    exact List.pairwise_lt_range' 1 (numChunks t (chunkSizeBytes m))

/-- Witness for claim C5 matching the spec example: `prefix = "x/"`,
input filename `data.parquet`, estimated footprint of 12 chunk budgets. -/
theorem object_key_format_witness :
    uploadedKeys (chunkAndUploadParquet (fun _ => true) [0, 1, 2]
        (12 * 1024 * 1024) 1 none none ("x/") "data.parquet").1
      = (List.range' 1 (numChunks (12 * 1024 * 1024) (chunkSizeBytes 1))).map
          (s3Key ("x/") (baseFilename ("data.parquet")))
    ∧ uploadedOrdinals (chunkAndUploadParquet (fun _ => true) [0, 1, 2]
        (12 * 1024 * 1024) 1 none none ("x/") "data.parquet").1
      = List.range' 1 (numChunks (12 * 1024 * 1024) (chunkSizeBytes 1))
    ∧ (uploadedOrdinals (chunkAndUploadParquet (fun _ => true) [0, 1, 2]
        (12 * 1024 * 1024) 1 none none ("x/") "data.parquet").1).Pairwise
          (· < ·) :=
  object_key_format (fun _ => true) [0, 1, 2] none none ("x/") "data.parquet"
    (by decide) (by decide) (fun _ => rfl)

/-- Claim C6: whenever `rows_per_chunk` computes to 0, every chunk except
the last is empty and the last chunk holds every row; and for an empty
dataset (whose positive estimated footprint fits in one chunk budget) the
run makes exactly one chunk of 0 rows, performs exactly one (empty) upload,
and finishes without error. -/
theorem degenerate_chunk_plan {α : Type} :
    (∀ (rows : List α) (n : Nat), 1 ≤ n → rows.length / n = 0 →
      (∀ i, i + 1 < n → chunkSlice rows n (rows.length / n) i = [])
      ∧ chunkSlice rows n (rows.length / n) (n - 1) = rows)
    ∧ (∀ (t m : Nat) (uploadOk : Nat → Bool) (ak sk : Option String)
        (pfx input : String), 0 < t → t ≤ chunkSizeBytes m →
        (∀ i, uploadOk i = true) →
        chunkAndUploadParquet uploadOk ([] : List α) t m ak sk pfx input
          = ([Event.clientInit (explicitCreds ak sk),
              Event.serialize 0 [],
              Event.upload 0 (s3Key pfx (baseFilename input) 1),
              Event.remove 0, Event.progress 1], .ok ())) := by
  constructor
  · intro rows n hn hp0
    constructor
    · intro i hi
      unfold chunkSlice
      rw [if_neg (by omega), hp0, List.take_zero]
    · unfold chunkSlice
      rw [if_pos rfl, hp0, Nat.mul_zero, List.drop_zero]
  · intro t m uploadOk ak sk pfx input ht htc h
    have hm : 0 < m := by
      unfold chunkSizeBytes at htc
      omega
    have hN : numChunks t (chunkSizeBytes m) = 1 := numChunks_eq_one ht htc
    rw [run_success uploadOk ([] : List α) ak sk pfx input ht hm h]
    simp [hN, chunkEvents, chunkSlice, List.range_succ]

/-- Witness for claim C6: empty dataset, footprint 128 bytes, 250 MB
budget — one empty chunk, one upload, clean exit. -/
theorem degenerate_chunk_plan_witness :
    (∀ i, i + 1 < 4 → chunkSlice [7, 8, 9] 4 ([7, 8, 9].length / 4) i = [])
    ∧ chunkSlice [7, 8, 9] 4 ([7, 8, 9].length / 4) 3 = [7, 8, 9]
    ∧ chunkAndUploadParquet (fun _ => true) ([] : List Nat) 128 250 none none
        "" "empty.parquet"
      = ([Event.clientInit (explicitCreds none none),
          Event.serialize 0 [],
          Event.upload 0 (s3Key ("") (baseFilename ("empty.parquet")) 1),
          Event.remove 0, Event.progress 1], .ok ()) :=
  ⟨((@degenerate_chunk_plan Nat).1 [7, 8, 9] 4 (by decide) (by decide)).1,
   ((@degenerate_chunk_plan Nat).1 [7, 8, 9] 4 (by decide) (by decide)).2,
   (@degenerate_chunk_plan Nat).2 128 250 (fun _ => true) none none ("")
     "empty.parquet" (by decide) (by decide) (fun _ => rfl)⟩

/-- Claim C10: explicit credentials are passed to the storage client if and
only if both `aws_access_key_id` and `aws_secret_access_key` are provided
and non-empty; otherwise the client is built without them (ambient
credential fallback).  The first event of any run that reaches client
construction records exactly this boolean. -/
theorem explicit_credentials {α : Type} (uploadOk : Nat → Bool)
    (rows : List α) {t m : Nat} (ak sk : Option String) (pfx input : String)
    (ht : 0 < t) (hm : 0 < m) :
    (explicitCreds ak sk = true ↔
      ((∃ x, ak = some x ∧ x ≠ "") ∧ (∃ y, sk = some y ∧ y ≠ "")))
    ∧ (chunkAndUploadParquet uploadOk rows t m ak sk pfx input).1.head?
        = some (Event.clientInit (explicitCreds ak sk)) := by
  constructor
  · cases ak <;> cases sk <;> simp [explicitCreds, truthy]
  · have hc := chunkSizeBytes_pos hm
    have hn := numChunks_pos ht hc
    unfold chunkAndUploadParquet
    rw [if_neg (by omega), if_neg (by omega)]
    rfl

/-- Witness for claim C10: one credential present and one empty string —
the client falls back to ambient credentials. -/
theorem explicit_credentials_witness :
    (explicitCreds (some ("AKIA")) (some ("")) = true ↔
      ((∃ x, some ("AKIA") = some x ∧ x ≠ "")
        ∧ (∃ y, (some ("") : Option String) = some y ∧ y ≠ "")))
    ∧ (chunkAndUploadParquet (fun _ => true) [0] 5 250 (some ("AKIA"))
        (some ("")) "" "a.parquet").1.head?
        = some (Event.clientInit (explicitCreds (some ("AKIA")) (some ("")))) :=
  explicit_credentials (fun _ => true) [0] (some ("AKIA")) (some ("")) ""
    "a.parquet" (by decide) (by decide)

/- Sublist helpers for the temporal-order claim. -/

lemma singleton_sublist_flatMap (rows : List α) (n p : Nat)
    (pfx base : String) {e : Event α} (j : Nat) (l : List Nat) (hj : j ∈ l)
    (he : e ∈ chunkEvents rows n p pfx base j) :
    [e].Sublist (l.flatMap (chunkEvents rows n p pfx base)) := by
  rw [List.singleton_sublist, List.mem_flatMap]
  exact ⟨j, hj, he⟩

lemma remove_before_serialize_flatMap (rows : List α) (n p : Nat)
    (pfx base : String) {i j : Nat} (hij : i < j) :
    ∀ cnt s, s ≤ i → j < s + cnt →
      [Event.remove i, Event.serialize j (chunkSlice rows n p j)].Sublist
        ((List.range' s cnt).flatMap (chunkEvents rows n p pfx base)) := by
  intro cnt
  induction cnt with
  | zero => intro s h1 h2; omega
  | succ c ih =>
    intro s h1 h2
    rw [List.range'_succ, List.flatMap_cons]
    by_cases hsi : s = i
    · subst hsi
      have hpair : [Event.remove s,
          Event.serialize j (chunkSlice rows n p j)]
          = [Event.remove s]
            ++ [Event.serialize j (chunkSlice rows n p j)] := rfl
      rw [hpair]
      refine List.Sublist.append ?_ ?_
      · rw [List.singleton_sublist]
        simp [chunkEvents]
      · refine singleton_sublist_flatMap rows n p pfx base j _ ?_ ?_
        · rw [List.mem_range'_1]
          omega
        · simp [chunkEvents]
    · exact List.sublist_append_of_sublist_right
        (ih (s + 1) (by omega) (by omega))

/-- Claim C8: chunks are processed strictly sequentially in ascending
ordinal order.  In a fully successful run the whole event trace is sorted
by chunk index (every operation on an earlier chunk happens before any
operation on a later chunk), and for every pair `i < j` the trace contains
the removal of chunk `i` strictly before the serialization of chunk `j`
(as the ordered sublist `[remove i, serialize j]`). -/
theorem sequential_chunk_order {α : Type} (uploadOk : Nat → Bool)
    (rows : List α) {t m : Nat} (ak sk : Option String) (pfx input : String)
    (ht : 0 < t) (hm : 0 < m) (h : ∀ i, uploadOk i = true) :
    ((chunkAndUploadParquet uploadOk rows t m ak sk pfx input).1).Pairwise
      (fun e f => eventChunk e ≤ eventChunk f)
    ∧ ∀ i j, i < j → j < numChunks t (chunkSizeBytes m) →
        [Event.remove i,
         Event.serialize j (chunkSlice rows (numChunks t (chunkSizeBytes m))
           (rows.length / numChunks t (chunkSizeBytes m)) j)].Sublist
          (chunkAndUploadParquet uploadOk rows t m ak sk pfx input).1 := by
  simp only [run_success uploadOk rows ak sk pfx input ht hm h]
  constructor
  · rw [List.pairwise_cons]
    refine ⟨fun e _ => Nat.zero_le _, ?_⟩
    exact pairwise_eventChunk_flatMap rows _ _ pfx (baseFilename input) _
      ((List.pairwise_lt_range _).imp Nat.le_of_lt)
  · intro i j hij hj
    apply List.sublist_cons_of_sublist
    rw [List.range_eq_range']
    exact remove_before_serialize_flatMap rows _ _ pfx (baseFilename input)
      hij _ 0 (by omega) (by omega)

/-- Witness for claim C8: two chunks over a 2-row dataset; chunk 0 is
removed before chunk 1 is serialized. -/
theorem sequential_chunk_order_witness :
    ((chunkAndUploadParquet (fun _ => true) [0, 1] (2 * 1024 * 1024) 1 none
        none ("") "d.parquet").1).Pairwise
      (fun e f => eventChunk e ≤ eventChunk f)
    ∧ [Event.remove 0,
       Event.serialize 1
         (chunkSlice [0, 1] (numChunks (2 * 1024 * 1024) (chunkSizeBytes 1))
           ([0, 1].length
             / numChunks (2 * 1024 * 1024) (chunkSizeBytes 1)) 1)].Sublist
        (chunkAndUploadParquet (fun _ => true) [0, 1] (2 * 1024 * 1024) 1
          none none ("") "d.parquet").1 :=
  ⟨(sequential_chunk_order (fun _ => true) [0, 1] none none ("") "d.parquet"
      (by decide) (by decide) (fun _ => rfl)).1,
   (sequential_chunk_order (fun _ => true) [0, 1] none none ("") "d.parquet"
      (by decide) (by decide) (fun _ => rfl)).2 0 1 (by decide) (by decide)⟩

/-- Claim C1, counterexample: in a 3-chunk run whose second upload fails,
the run ends in error, the failed upload of chunk index 1 is in the trace,
and the temporary file of that chunk is left on disk — `os.remove` on line 64
runs only after a successful upload, there is no `try/finally`, so the
temporary file is NOT deleted on the failure path, contradicting the
claim. -/
theorem temp_file_left_on_failure :
    (chunkAndUploadParquet (fun i => i != 1) [0, 1, 2, 3, 4, 5]
        (3 * 1024 * 1024) 1 none none ("x/") "d/data.parquet").2
      = .error (.uploadError 1)
    ∧ Event.uploadFail 1 ("x/data_part_002.parquet")
        ∈ (chunkAndUploadParquet (fun i => i != 1) [0, 1, 2, 3, 4, 5]
            (3 * 1024 * 1024) 1 none none ("x/") "d/data.parquet").1
    ∧ tempFilesLeft (chunkAndUploadParquet (fun i => i != 1)
        [0, 1, 2, 3, 4, 5] (3 * 1024 * 1024) 1 none none ("x/")
        "d/data.parquet").1 = [1] :=
  ⟨rfl, by decide, by decide⟩

/-- Claim C1, amended: the temporary file of every chunk whose upload
succeeds is removed, and when the upload of a chunk fails that chunk's
temporary file is NOT removed — it is left behind while the error
propagates (the removals are exactly the chunks before the failing one). -/
theorem temp_file_cleanup_amended {α : Type} (uploadOk : Nat → Bool)
    (rows : List α) {t m k : Nat} (ak sk : Option String)
    (pfx input : String) (ht : 0 < t) (hm : 0 < m)
    (hok : ∀ i, i < k → uploadOk i = true) (hk : uploadOk k = false)
    (hkn : k < numChunks t (chunkSizeBytes m)) :
    removedOrdinals
        (chunkAndUploadParquet uploadOk rows t m ak sk pfx input).1
      = List.range k
    ∧ serializedOrdinals
        (chunkAndUploadParquet uploadOk rows t m ak sk pfx input).1
      = List.range (k + 1)
    ∧ ¬ k ∈ removedOrdinals
        (chunkAndUploadParquet uploadOk rows t m ak sk pfx input).1
    ∧ (chunkAndUploadParquet uploadOk rows t m ak sk pfx input).2
      = .error (.uploadError k) := by
  simp only [run_firstFail uploadOk rows ak sk pfx input ht hm hok hk hkn,
    removedOrdinals_cons_clientInit, serializedOrdinals_cons_clientInit,
    removedOrdinals_append, serializedOrdinals_append,
    removedOrdinals_flatMap, serializedOrdinals_flatMap,
    removedOrdinals_failTail, serializedOrdinals_failTail, List.append_nil]
  refine ⟨?_, ?_, ?_, trivial⟩
  · rw [← List.range_eq_range']
  · rw [← List.range_eq_range', ← List.range_succ]
  · rw [← List.range_eq_range']
    simp [List.mem_range]

/-- Witness for the amended claim C1: the concrete 3-chunk run failing at
chunk index 1 removes only the temporary file of chunk 0. -/
theorem temp_file_cleanup_amended_witness :
    removedOrdinals (chunkAndUploadParquet (fun i => i != 1)
        [0, 1, 2, 3, 4, 5] (3 * 1024 * 1024) 1 none none ("x/")
        "d/data.parquet").1 = List.range 1
    ∧ serializedOrdinals (chunkAndUploadParquet (fun i => i != 1)
        [0, 1, 2, 3, 4, 5] (3 * 1024 * 1024) 1 none none ("x/")
        "d/data.parquet").1 = List.range (1 + 1)
    ∧ ¬ 1 ∈ removedOrdinals (chunkAndUploadParquet (fun i => i != 1)
        [0, 1, 2, 3, 4, 5] (3 * 1024 * 1024) 1 none none ("x/")
        "d/data.parquet").1
    ∧ (chunkAndUploadParquet (fun i => i != 1) [0, 1, 2, 3, 4, 5]
        (3 * 1024 * 1024) 1 none none ("x/") "d/data.parquet").2
      = .error (.uploadError 1) :=
  temp_file_cleanup_amended (fun i => i != 1) [0, 1, 2, 3, 4, 5] none none
    "x/" "d/data.parquet" (by decide) (by decide)
    (fun i hi => by
      have h0 : i = 0 := by omega
      subst h0
      rfl)
    rfl (by decide)

/-- Claim C7: when the serialization or the upload of chunk index `k`
fails (all earlier chunks having fully succeeded), the run aborts at once
with that error surfaced as-is: no retry happens (each chunk index is
serialized at most once), no chunk after `k` is serialized or uploaded,
and the uploads that reached the bucket are exactly the keys of ordinals
`1 .. k` — nothing in the trace removes them (no rollback). -/
theorem abort_on_chunk_failure {α : Type} (serializeOk uploadOk : Nat → Bool)
    (rows : List α) {t m k : Nat} (ak sk : Option String)
    (pfx input : String) (ht : 0 < t) (hm : 0 < m)
    (hok : ∀ i, i < k → serializeOk i = true ∧ uploadOk i = true)
    (hk : serializeOk k = false ∨ uploadOk k = false)
    (hkn : k < numChunks t (chunkSizeBytes m)) :
    (chunkAndUploadParquetF serializeOk uploadOk rows t m ak sk pfx
        input).2
      = .error (if serializeOk k then .uploadError k else .serializeError k)
    ∧ serializedOrdinals (chunkAndUploadParquetF serializeOk uploadOk rows
        t m ak sk pfx input).1
      = List.range (if serializeOk k then k + 1 else k)
    ∧ (∀ i ∈ serializedOrdinals (chunkAndUploadParquetF serializeOk
        uploadOk rows t m ak sk pfx input).1, i ≤ k)
    ∧ (serializedOrdinals (chunkAndUploadParquetF serializeOk uploadOk
        rows t m ak sk pfx input).1).Nodup
    ∧ uploadedKeys (chunkAndUploadParquetF serializeOk uploadOk rows t m
        ak sk pfx input).1
      = (List.range' 1 k).map (s3Key pfx (baseFilename input)) := by
  by_cases hsk : serializeOk k = true
  · have hku : uploadOk k = false := by
      rcases hk with h | h
      · rw [hsk] at h
        simp at h
      · exact h
    rw [if_pos hsk, if_pos hsk]
    simp only [runF_firstFailUpload serializeOk uploadOk rows ak sk pfx
        input ht hm hok hsk hku hkn,
      serializedOrdinals_cons_clientInit, uploadedKeys_cons_clientInit,
      serializedOrdinals_append, uploadedKeys_append,
      serializedOrdinals_flatMap, uploadedKeys_flatMap,
      serializedOrdinals_failTail, uploadedKeys_failTail, List.append_nil]
    refine ⟨trivial, ?_, ?_, ?_, ?_⟩
    · rw [← List.range_eq_range', ← List.range_succ]
    · intro i hi
      simp only [List.mem_append, List.mem_range'_1, List.mem_singleton]
        at hi
      omega
    · rw [← List.range_eq_range', ← List.range_succ]
      exact List.nodup_range _
    · rw [← List.range_eq_range']
      exact map_succ_range _ _
  · have hsf : serializeOk k = false := by
      rw [Bool.not_eq_true] at hsk
      exact hsk
    rw [if_neg hsk, if_neg hsk]
    simp only [runF_firstFailSerialize serializeOk uploadOk rows ak sk pfx
        input ht hm hok hsf hkn,
      serializedOrdinals_cons_clientInit, uploadedKeys_cons_clientInit,
      serializedOrdinals_append, uploadedKeys_append,
      serializedOrdinals_flatMap, uploadedKeys_flatMap,
      serializedOrdinals_serializeFailTail, uploadedKeys_serializeFailTail,
      List.append_nil]
    refine ⟨trivial, ?_, ?_, ?_, ?_⟩
    · rw [← List.range_eq_range']
    · intro i hi
      rw [List.mem_range'_1] at hi
      omega
    · rw [← List.range_eq_range']
      exact List.nodup_range _
    · rw [← List.range_eq_range']
      exact map_succ_range _ _

/-- Witness for claim C7: a 3-chunk run where serialization of chunk
index 1 raises — the run aborts with the serialize error, chunk 2 is never
reached, and only the ordinal-1 key was uploaded (and stays uploaded). -/
theorem abort_on_chunk_failure_witness :
    (chunkAndUploadParquetF (fun i => i != 1) (fun _ => true)
        [0, 1, 2, 3, 4, 5] (3 * 1024 * 1024) 1 none none ("x/")
        "d/data.parquet").2 = .error (.serializeError 1)
    ∧ serializedOrdinals (chunkAndUploadParquetF (fun i => i != 1)
        (fun _ => true) [0, 1, 2, 3, 4, 5] (3 * 1024 * 1024) 1 none none
        ("x/") "d/data.parquet").1 = List.range 1
    ∧ (∀ i ∈ serializedOrdinals (chunkAndUploadParquetF (fun i => i != 1)
        (fun _ => true) [0, 1, 2, 3, 4, 5] (3 * 1024 * 1024) 1 none none
        ("x/") "d/data.parquet").1, i ≤ 1)
    ∧ (serializedOrdinals (chunkAndUploadParquetF (fun i => i != 1)
        (fun _ => true) [0, 1, 2, 3, 4, 5] (3 * 1024 * 1024) 1 none none
        ("x/") "d/data.parquet").1).Nodup
    ∧ uploadedKeys (chunkAndUploadParquetF (fun i => i != 1)
        (fun _ => true) [0, 1, 2, 3, 4, 5] (3 * 1024 * 1024) 1 none none
        ("x/") "d/data.parquet").1
      = (List.range' 1 1).map
          (s3Key ("x/") (baseFilename ("d/data.parquet"))) :=
  @abort_on_chunk_failure Nat (fun i => i != 1) (fun _ => true)
    [0, 1, 2, 3, 4, 5] (3 * 1024 * 1024) 1 1 none none ("x/")
    ("d/data.parquet") (by decide) (by decide)
    (fun i hi => by
      have h0 : i = 0 := by omega
      subst h0
      exact ⟨rfl, rfl⟩)
    (Or.inl rfl) (by decide)

end ParquetChunker
